import Mathlib

/-!
# Verification of the label-assembly and signature-deduplication pipeline

A shallow embedding, in Lean 4, of the sample-processing core of the
`stackdriver_exporter` fork: the FNV-1a hash accumulator, the signature
computation over (metric name, label keys, label values, timestamp), the
deduplicator state machine (`CheckAndMark` / `RevertMark` / `Reset`), and the
label-assembly steps (`keyExists`, `addOrOverrideLabels`, `addSystemLabels`,
and the source-precedence assembly order).

Go strings are modelled as lists of bytes (`List Nat`, each element < 256);
Go `uint64` arithmetic is modelled as `Nat` arithmetic reduced `% 2^64` at
each step that can overflow.  Go string comparison (`<` on strings) is
byte-wise lexicographic and is modelled by `bytesLt`.

The deduplicator in `collectors/deduplicator.go` sorts label indices with
`sort.Slice` and a key comparator.  For slices below the standard library's
insertion-sort threshold that sort is an insertion sort, whose result is the
unique permutation ordered by the comparator with ties kept in original
order; `sortIndices` models the sort by a stable insertion sort, which
coincides with that behaviour.
-/

namespace StackdriverSpec

/-! ## Hash accumulator (package `hash`)

The `hash` package's implementation file is not part of the sources at hand
(only its test file is), so the primitives below are modelled from the spec.
-/

/-- Modelled from the spec: the FNV-1a 64-bit prime constant of the `hash`
package (the package's implementation file is absent; the spec fixes the
scheme as the canonical 64-bit FNV-1a). -/
def prime64 : Nat := 1099511628211

/-- Modelled from the spec: `New()` returns the fixed 64-bit FNV-1a offset
basis. -/
def New : Nat := 14695981039346656037

/-- Modelled from the spec: `AddByte(state, b)` computes
`(state XOR b) * prime` with 64-bit wraparound. -/
def AddByte (h b : Nat) : Nat := ((h ^^^ b) * prime64) % 2 ^ 64

/-- Modelled from the spec: `Add(state, bytes)` folds `AddByte` over each
byte of the string in sequence order. -/
def Add (h : Nat) (s : List Nat) : Nat := s.foldl AddByte h

/-- Modelled from the spec: a fixed separator byte distinct from any byte of
ordinary label text (the conventional value `0xff`). -/
def SeparatorByte : Nat := 255

/-- The eight bytes of a 64-bit value, least-significant byte first. -/
def uint64Bytes (v : Nat) : List Nat :=
  [v % 256, v / 2 ^ 8 % 256, v / 2 ^ 16 % 256, v / 2 ^ 24 % 256,
   v / 2 ^ 32 % 256, v / 2 ^ 40 % 256, v / 2 ^ 48 % 256, v / 2 ^ 56 % 256]

/-- Modelled from the spec: `AddUint64(state, v)` folds `AddByte` over the
eight bytes of `v` taken least-significant byte first. -/
def AddUint64 (h v : Nat) : Nat := (uint64Bytes v).foldl AddByte h

/-! ## Byte-wise string comparison

Go's `labelKeys[i] < labelKeys[j]` compares strings byte-wise
lexicographically; `bytesLt` is that comparison on byte lists. -/

/-- Byte-wise lexicographic strict comparison of two byte strings, as Go's
`<` on strings. -/
def bytesLt : List Nat → List Nat → Bool
  | [], [] => false
  | [], _ :: _ => true
  | _ :: _, [] => false
  | a :: as, b :: bs => if a < b then true else if b < a then false else bytesLt as bs

/-- Non-strict byte-wise comparison: `a` is not after `b`. -/
def bytesLe (a b : List Nat) : Bool := !(bytesLt b a)

/-! ## Signature computation (`hashLabelsTimestamp` in `collectors/deduplicator.go`,
`hashLabels` in the project-labeled deduplicator variant)

Both Go functions build `indices = [0, 1, ...]`, sort them with `sort.Slice`
by `labelKeys[indices[i]] < labelKeys[indices[j]]`, and fold key bytes, a
separator, the value bytes when `idx < len(labelValues)`, and a separator,
in sorted index order.  `sortIndices` models the sort as the stable
insertion sort on indices ordered by `keyLe` (key not after key), which is
the behaviour of `sort.Slice`'s insertion-sort path. -/

/-- The ordering under which label indices are sorted: index `i` is not
after index `j` when `labelKeys[j] < labelKeys[i]` fails (the negation of
the Go comparator with the arguments swapped). -/
def keyLe (keys : List (List Nat)) (i j : Nat) : Prop :=
  bytesLe (keys.getD i []) (keys.getD j []) = true

instance keyLe.decRel (keys : List (List Nat)) : DecidableRel (keyLe keys) := fun i j => by
  unfold keyLe
  infer_instance

/-- The sorted permutation of the label indices `[0, ..., len(labelKeys)-1]`. -/
def sortIndices (keys : List (List Nat)) : List Nat :=
  List.insertionSort (keyLe keys) (List.range keys.length)

/-- One iteration of the sorted-order label fold: key bytes, separator,
value bytes when the index is within `labelValues`, separator. -/
def hashBody (keys values : List (List Nat)) (h idx : Nat) : Nat :=
  AddByte
    (if idx < values.length then
      Add (AddByte (Add h (keys.getD idx [])) SeparatorByte) (values.getD idx [])
    else AddByte (Add h (keys.getD idx [])) SeparatorByte)
    SeparatorByte

/-- `hashLabels` of the project-labeled deduplicator variant: fold the
metric name, a separator, then the labels in sorted key order (skipping the
whole loop when there are no labels, as the source does). -/
def hashLabels (fqName : List Nat) (labelKeys labelValues : List (List Nat)) : Nat :=
  if 0 < labelKeys.length then
    (sortIndices labelKeys).foldl (hashBody labelKeys labelValues)
      (AddByte (Add New fqName) SeparatorByte)
  else AddByte (Add New fqName) SeparatorByte

/-- `hashLabelsTimestamp` of `collectors/deduplicator.go`: its name and
label fold is line-for-line that of `hashLabels`, followed by folding the
timestamp's nanosecond value (as a 64-bit integer, least-significant byte
first). -/
def hashLabelsTimestamp (fqName : List Nat) (labelKeys labelValues : List (List Nat))
    (tsNano : Nat) : Nat :=
  AddUint64 (hashLabels fqName labelKeys labelValues) tsNano

/-! ## Deduplicator state (`MetricDeduplicator`)

The Go struct holds a signature set, two monotonic counters and a gauge
(all guarded by one mutex, which a sequential model does not need).  The
counters and the gauge are Prometheus `float64` metrics that only ever hold
exact small integers (increments by one, and the set's size), so they are
modelled as `Nat`. -/

structure MetricDeduplicator where
  sentSignatures : Finset Nat
  checksTotal : Nat
  duplicatesTotal : Nat
  uniqueMetricsGauge : Nat

/-- `NewMetricDeduplicator`: empty signature set, zeroed metrics. -/
def NewMetricDeduplicator : MetricDeduplicator :=
  { sentSignatures := ∅, checksTotal := 0, duplicatesTotal := 0, uniqueMetricsGauge := 0 }

/-- `CheckAndMark` of `collectors/deduplicator.go`: increment the checks
counter, compute the signature; on a hit increment the duplicates counter
and return `true`; otherwise insert the signature, set the gauge to the new
set size, and return `false`. -/
def CheckAndMark (d : MetricDeduplicator) (name : List Nat)
    (labelKeys labelValues : List (List Nat)) (ts : Nat) : Bool × MetricDeduplicator :=
  let d1 := { d with checksTotal := d.checksTotal + 1 }
  let signature := hashLabelsTimestamp name labelKeys labelValues ts
  if signature ∈ d1.sentSignatures then
    (true, { d1 with duplicatesTotal := d1.duplicatesTotal + 1 })
  else
    let sent := insert signature d1.sentSignatures
    (false, { d1 with sentSignatures := sent, uniqueMetricsGauge := sent.card })

/-- `RevertMark` of `collectors/deduplicator.go`: delete the recomputed
signature (a no-op when absent) and refresh the gauge. -/
def RevertMark (d : MetricDeduplicator) (fqName : List Nat)
    (labelKeys labelValues : List (List Nat)) (ts : Nat) : MetricDeduplicator :=
  let signature := hashLabelsTimestamp fqName labelKeys labelValues ts
  let sent := d.sentSignatures.erase signature
  { d with sentSignatures := sent, uniqueMetricsGauge := sent.card }

/-- `Reset`: empty the signature set and zero the gauge; the counters are
left as they are. -/
def Reset (d : MetricDeduplicator) : MetricDeduplicator :=
  { d with sentSignatures := ∅, uniqueMetricsGauge := 0 }

namespace ProjectDedup

/-! The project-labeled deduplicator variant: `CheckAndMark` takes no
timestamp and hashes with `hashLabels`; `RevertMark` still takes a
timestamp parameter but never uses it. -/

/-- `CheckAndMark` of the project-labeled variant (no timestamp). -/
def CheckAndMark (d : MetricDeduplicator) (name : List Nat)
    (labelKeys labelValues : List (List Nat)) : Bool × MetricDeduplicator :=
  let d1 := { d with checksTotal := d.checksTotal + 1 }
  let signature := hashLabels name labelKeys labelValues
  if signature ∈ d1.sentSignatures then
    (true, { d1 with duplicatesTotal := d1.duplicatesTotal + 1 })
  else
    let sent := insert signature d1.sentSignatures
    (false, { d1 with sentSignatures := sent, uniqueMetricsGauge := sent.card })

/-- `RevertMark` of the project-labeled variant: the signature is computed
by `hashLabels` from the name and labels only; the `ts` parameter is
accepted but unused, exactly as in the source. -/
def RevertMark (d : MetricDeduplicator) (fqName : List Nat)
    (labelKeys labelValues : List (List Nat)) (ts : Nat) : MetricDeduplicator :=
  let signature := hashLabels fqName labelKeys labelValues
  let sent := d.sentSignatures.erase signature
  { d with sentSignatures := sent, uniqueMetricsGauge := sent.card }

end ProjectDedup

/-- A single deduplicator operation, for stating frame properties over
arbitrary operation sequences. -/
inductive DedupOp where
  | check (name : List Nat) (labelKeys labelValues : List (List Nat)) (ts : Nat)
  | revert (name : List Nat) (labelKeys labelValues : List (List Nat)) (ts : Nat)
  | reset

/-- Apply one operation to the deduplicator state. -/
def applyOp (d : MetricDeduplicator) : DedupOp → MetricDeduplicator
  | .check n ks vs ts => (CheckAndMark d n ks vs ts).2
  | .revert n ks vs ts => RevertMark d n ks vs ts
  | .reset => Reset d

/-- Apply a sequence of operations, left to right. -/
def applyOps (d : MetricDeduplicator) (ops : List DedupOp) : MetricDeduplicator :=
  ops.foldl applyOp d

/-- The state after one `CheckAndMark` call, used to iterate identical calls. -/
def checkStep (name : List Nat) (labelKeys labelValues : List (List Nat)) (ts : Nat)
    (d : MetricDeduplicator) : MetricDeduplicator :=
  (CheckAndMark d name labelKeys labelValues ts).2




/-! ## Sorted label pairs

Proof apparatus for relating the index-based sorted fold of the source to a
sort of the (key, value) pairs themselves. -/

/-- Pair ordering by key: the first pair's key is not after the second's. -/
def pairLe (x y : List Nat × List Nat) : Prop := bytesLe x.1 y.1 = true

instance pairLe.decRel : DecidableRel pairLe := fun x y => by
  unfold pairLe
  infer_instance

/-- Strict pair ordering by key. -/
def pairLt (x y : List Nat × List Nat) : Prop := bytesLt x.1 y.1 = true

/-- The (key, value) pairs in the order the sorted fold visits them. -/
def sortPairs (p : List (List Nat × List Nat)) : List (List Nat × List Nat) :=
  List.insertionSort pairLe p

/-- The fold step over one visited (key, value) pair. -/
def foldPair (h : Nat) (kv : List Nat × List Nat) : Nat :=
  AddByte (Add (AddByte (Add h kv.1) SeparatorByte) kv.2) SeparatorByte

/-! ## Label assembly (`monitoring_collector.go`)

The collector's label-processing functions (`keyExists`, `findKeyIndex`,
`addSystemLabels`) are not part of the sources at hand — only their tests
and the test that replays the `reportTimeSeriesMetrics` label-processing
order are — so they are modelled from the spec, with the behaviour pinned
by those tests.  Labels here are Lean `String`s (only equality of label
text matters on this path). -/

/-- Modelled from the spec: the decoded shape of the raw system-label
payload.  Per the spec the payload is decoded into a generic tree; only an
object root is accepted, flattened to string-valued pairs in document
order; `unparsable` covers empty input and text that fails decoding, and
`null`, `array` and `scalar` are the other non-object root shapes. -/
inductive SystemLabelsPayload where
  | unparsable
  | null
  | array
  | scalar
  | obj (pairs : List (String × String))

/-- Whether the decoded payload has an object root. -/
def isObjPayload : SystemLabelsPayload → Bool
  | .obj _ => true
  | _ => false

/-- Modelled from the spec: `keyExists` is a case-sensitive linear scan of
the key sequence. -/
def keyExists (labelKeys : List String) (key : String) : Bool :=
  labelKeys.contains key

/-- Modelled from the spec: `findKeyIndex` returns the first matching index
or the sentinel `-1`. -/
def findKeyIndex (labelKeys : List String) (key : String) : Int :=
  match labelKeys.findIdx? (· == key) with
  | some i => (i : Int)
  | none => -1

/-- Append one (key, value) pair unless the key is already present — the
skip-existing step used for every label source. -/
def addIfAbsent (kv : List String × List String) (pair : String × String) :
    List String × List String :=
  if keyExists kv.1 pair.1 then kv else (kv.1 ++ [pair.1], kv.2 ++ [pair.2])

/-- Modelled from the spec: `addSystemLabels` appends the payload's pairs
(skipping keys already present) when the decoded root is an object, and
otherwise leaves the label sequences unchanged, surfacing nothing. -/
def addSystemLabels (payload : SystemLabelsPayload)
    (labelKeys labelValues : List String) : List String × List String :=
  match payload with
  | .obj pairs => pairs.foldl addIfAbsent (labelKeys, labelValues)
  | _ => (labelKeys, labelValues)

/-- The label-processing order of `reportTimeSeriesMetrics`, as replayed by
`TestMonitoringCollector_LabelProcessingOrder`: unit label first, then
metric labels, then resource labels; with the override flag user labels are
added before system labels, otherwise system labels before user labels;
system labels are consulted only when enabled.  Go's map iteration is
modelled by list order (the claims' scenarios use singleton mappings). -/
def assembleLabels (unitLabel : String)
    (metricLabels resourceLabels userLabels : List (String × String))
    (systemPayload : SystemLabelsPayload)
    (enableSystemLabels userLabelsOverride : Bool) : List String × List String :=
  let kv0 := (["unit"], [unitLabel])
  let kv1 := metricLabels.foldl addIfAbsent kv0
  let kv2 := resourceLabels.foldl addIfAbsent kv1
  if userLabelsOverride then
    let kv3 := userLabels.foldl addIfAbsent kv2
    if enableSystemLabels then addSystemLabels systemPayload kv3.1 kv3.2 else kv3
  else
    let kv3 :=
      if enableSystemLabels then addSystemLabels systemPayload kv2.1 kv2.2 else kv2
    userLabels.foldl addIfAbsent kv3

/-! ## Byte-comparison lemmas -/

theorem bytesLt_irrefl (a : List Nat) : bytesLt a a = false := by
  induction a with
  | nil => rfl
  | cons x xs ih => simp [bytesLt, ih]

theorem bytesLt_trans {a b c : List Nat} (hab : bytesLt a b = true)
    (hbc : bytesLt b c = true) : bytesLt a c = true := by
  induction a generalizing b c with
  | nil =>
    cases b with
    | nil => exact absurd hab (by simp [bytesLt])
    | cons y ys =>
      cases c with
      | nil => exact absurd hbc (by simp [bytesLt])
      | cons z zs => rfl
  | cons x xs ih =>
    cases b with
    | nil => exact absurd hab (by simp [bytesLt])
    | cons y ys =>
      cases c with
      | nil => exact absurd hbc (by simp [bytesLt])
      | cons z zs =>
        rcases Nat.lt_trichotomy x y with hxy | hxy | hxy
        · rcases Nat.lt_trichotomy y z with hyz | hyz | hyz
          · simp [bytesLt, Nat.lt_trans hxy hyz]
          · subst hyz
            simp [bytesLt, hxy]
          · exact absurd hbc (by simp [bytesLt, Nat.lt_asymm hyz, hyz])
        · subst hxy
          simp only [bytesLt, Nat.lt_irrefl, if_false] at hab hbc
          rcases Nat.lt_trichotomy x z with hxz | hxz | hxz
          · simp [bytesLt, hxz]
          · subst hxz
            simp only [Nat.lt_irrefl, if_false] at hbc
            simp only [bytesLt, Nat.lt_irrefl, if_false]
            exact ih hab hbc
          · exact absurd hbc (by simp [Nat.lt_asymm hxz, hxz])
        · exact absurd hab (by simp [bytesLt, Nat.lt_asymm hxy, hxy])

theorem bytesLt_asymm {a b : List Nat} (hab : bytesLt a b = true) :
    bytesLt b a = false := by
  by_contra h
  have hba : bytesLt b a = true := by
    cases hb : bytesLt b a
    · exact absurd hb h
    · rfl
  have := bytesLt_trans hab hba
  rw [bytesLt_irrefl] at this
  exact Bool.false_ne_true this

theorem eq_of_not_bytesLt {a b : List Nat} (hab : bytesLt a b = false)
    (hba : bytesLt b a = false) : a = b := by
  induction a generalizing b with
  | nil =>
    cases b with
    | nil => rfl
    | cons y ys => exact absurd hab (by simp [bytesLt])
  | cons x xs ih =>
    cases b with
    | nil => exact absurd hba (by simp [bytesLt])
    | cons y ys =>
      rcases Nat.lt_trichotomy x y with hxy | hxy | hxy
      · exact absurd hab (by simp [bytesLt, hxy])
      · subst hxy
        simp only [bytesLt, Nat.lt_irrefl, if_false] at hab hba
        rw [ih hab hba]
      · exact absurd hba (by simp [bytesLt, hxy])

theorem bytesLe_total (a b : List Nat) : bytesLe a b = true ∨ bytesLe b a = true := by
  unfold bytesLe
  cases h : bytesLt b a
  · left; rfl
  · right
    rw [bytesLt_asymm h]
    rfl

theorem bytesLe_trans {a b c : List Nat} (hab : bytesLe a b = true)
    (hbc : bytesLe b c = true) : bytesLe a c = true := by
  unfold bytesLe at *
  cases hca : bytesLt c a
  · rfl
  · exfalso
    cases hcb : bytesLt c b
    · cases hbc' : bytesLt b c
      · have := eq_of_not_bytesLt hbc' hcb
        subst this
        rw [hca] at hab
        simp at hab
      · have := bytesLt_trans hbc' hca
        rw [this] at hab
        simp at hab
    · rw [hcb] at hbc
      simp at hbc

/-! ## Basic facts about `CheckAndMark` -/

theorem CheckAndMark_fst (d : MetricDeduplicator) (name : List Nat)
    (labelKeys labelValues : List (List Nat)) (ts : Nat) :
    (CheckAndMark d name labelKeys labelValues ts).1 =
      decide (hashLabelsTimestamp name labelKeys labelValues ts ∈ d.sentSignatures) := by
  unfold CheckAndMark
  by_cases h : hashLabelsTimestamp name labelKeys labelValues ts ∈ d.sentSignatures <;> simp [h]

theorem CheckAndMark_checks (d : MetricDeduplicator) (name : List Nat)
    (labelKeys labelValues : List (List Nat)) (ts : Nat) :
    (CheckAndMark d name labelKeys labelValues ts).2.checksTotal = d.checksTotal + 1 := by
  unfold CheckAndMark
  by_cases h : hashLabelsTimestamp name labelKeys labelValues ts ∈ d.sentSignatures <;> simp [h]

theorem CheckAndMark_dups (d : MetricDeduplicator) (name : List Nat)
    (labelKeys labelValues : List (List Nat)) (ts : Nat) :
    (CheckAndMark d name labelKeys labelValues ts).2.duplicatesTotal =
      if hashLabelsTimestamp name labelKeys labelValues ts ∈ d.sentSignatures
        then d.duplicatesTotal + 1 else d.duplicatesTotal := by
  unfold CheckAndMark
  by_cases h : hashLabelsTimestamp name labelKeys labelValues ts ∈ d.sentSignatures <;> simp [h]

theorem CheckAndMark_sent (d : MetricDeduplicator) (name : List Nat)
    (labelKeys labelValues : List (List Nat)) (ts : Nat) :
    (CheckAndMark d name labelKeys labelValues ts).2.sentSignatures =
      if hashLabelsTimestamp name labelKeys labelValues ts ∈ d.sentSignatures
        then d.sentSignatures
        else insert (hashLabelsTimestamp name labelKeys labelValues ts) d.sentSignatures := by
  unfold CheckAndMark
  by_cases h : hashLabelsTimestamp name labelKeys labelValues ts ∈ d.sentSignatures <;> simp [h]

theorem CheckAndMark_gauge (d : MetricDeduplicator) (name : List Nat)
    (labelKeys labelValues : List (List Nat)) (ts : Nat) :
    (CheckAndMark d name labelKeys labelValues ts).2.uniqueMetricsGauge =
      if hashLabelsTimestamp name labelKeys labelValues ts ∈ d.sentSignatures
        then d.uniqueMetricsGauge
        else (insert (hashLabelsTimestamp name labelKeys labelValues ts) d.sentSignatures).card := by
  unfold CheckAndMark
  by_cases h : hashLabelsTimestamp name labelKeys labelValues ts ∈ d.sentSignatures <;> simp [h]

theorem mem_checkStep_self (d : MetricDeduplicator) (name : List Nat)
    (labelKeys labelValues : List (List Nat)) (ts : Nat) :
    hashLabelsTimestamp name labelKeys labelValues ts ∈
      (checkStep name labelKeys labelValues ts d).sentSignatures := by
  unfold checkStep
  rw [CheckAndMark_sent]
  by_cases h : hashLabelsTimestamp name labelKeys labelValues ts ∈ d.sentSignatures <;>
    simp [h]

/-! ## Claim theorems: deduplicator state machine -/

/-- C4: on every `CheckAndMark` call the checks counter increases by exactly
one; on a hit the call returns `true`, the duplicates counter increases by
one and the set and gauge are unchanged; on a miss the call returns
`false`, the signature is inserted, the duplicates counter is unchanged and
the gauge is set to the new size of the set. -/
theorem CheckAndMark_postconditions (d : MetricDeduplicator) (name : List Nat)
    (labelKeys labelValues : List (List Nat)) (ts : Nat) :
    (CheckAndMark d name labelKeys labelValues ts).2.checksTotal = d.checksTotal + 1 ∧
    (CheckAndMark d name labelKeys labelValues ts).1 =
      decide (hashLabelsTimestamp name labelKeys labelValues ts ∈ d.sentSignatures) ∧
    (CheckAndMark d name labelKeys labelValues ts).2.duplicatesTotal =
      (if hashLabelsTimestamp name labelKeys labelValues ts ∈ d.sentSignatures
        then d.duplicatesTotal + 1 else d.duplicatesTotal) ∧
    (CheckAndMark d name labelKeys labelValues ts).2.sentSignatures =
      (if hashLabelsTimestamp name labelKeys labelValues ts ∈ d.sentSignatures
        then d.sentSignatures
        else insert (hashLabelsTimestamp name labelKeys labelValues ts) d.sentSignatures) ∧
    (CheckAndMark d name labelKeys labelValues ts).2.uniqueMetricsGauge =
      (if hashLabelsTimestamp name labelKeys labelValues ts ∈ d.sentSignatures
        then d.uniqueMetricsGauge
        else (insert (hashLabelsTimestamp name labelKeys labelValues ts) d.sentSignatures).card) :=
  ⟨CheckAndMark_checks d name labelKeys labelValues ts,
   CheckAndMark_fst d name labelKeys labelValues ts,
   CheckAndMark_dups d name labelKeys labelValues ts,
   CheckAndMark_sent d name labelKeys labelValues ts,
   CheckAndMark_gauge d name labelKeys labelValues ts⟩

/-- C6: starting from a state that has not seen the signature, the first of
`n ≥ 1` identical `CheckAndMark` calls returns `false` and every later one
of those calls returns `true`. -/
theorem CheckAndMark_idempotent_within_iteration (d : MetricDeduplicator)
    (name : List Nat) (labelKeys labelValues : List (List Nat)) (ts : Nat) (n : Nat)
    (hn : 1 ≤ n)
    (hfresh : hashLabelsTimestamp name labelKeys labelValues ts ∉ d.sentSignatures) :
    (CheckAndMark d name labelKeys labelValues ts).1 = false ∧
    ∀ k, 1 ≤ k → k < n →
      (CheckAndMark ((checkStep name labelKeys labelValues ts)^[k] d)
        name labelKeys labelValues ts).1 = true := by
  refine ⟨by rw [CheckAndMark_fst]; simp [hfresh], ?_⟩
  intro k hk _
  obtain ⟨k', rfl⟩ : ∃ k', k = k' + 1 := ⟨k - 1, (Nat.succ_pred_eq_of_pos hk).symm⟩
  rw [Function.iterate_succ_apply', CheckAndMark_fst]
  simp [mem_checkStep_self]

theorem applyOp_counters_mono (d : MetricDeduplicator) (op : DedupOp) :
    d.checksTotal ≤ (applyOp d op).checksTotal ∧
    d.duplicatesTotal ≤ (applyOp d op).duplicatesTotal := by
  cases op with
  | check n ks vs ts =>
    refine ⟨?_, ?_⟩
    · rw [applyOp, CheckAndMark_checks]
      exact Nat.le_succ _
    · rw [applyOp, CheckAndMark_dups]
      by_cases h : hashLabelsTimestamp n ks vs ts ∈ d.sentSignatures <;> simp [h]
  | revert n ks vs ts => exact ⟨Nat.le_refl _, Nat.le_refl _⟩
  | reset => exact ⟨Nat.le_refl _, Nat.le_refl _⟩

theorem applyOps_counters_mono (ops : List DedupOp) (d : MetricDeduplicator) :
    d.checksTotal ≤ (applyOps d ops).checksTotal ∧
    d.duplicatesTotal ≤ (applyOps d ops).duplicatesTotal := by
  induction ops generalizing d with
  | nil => exact ⟨Nat.le_refl _, Nat.le_refl _⟩
  | cons op rest ih =>
    have h1 := applyOp_counters_mono d op
    have h2 := ih (applyOp d op)
    exact ⟨Nat.le_trans h1.1 h2.1, Nat.le_trans h1.2 h2.2⟩

/-- C7: `Reset` empties the signature set and zeroes the gauge while leaving
both counters unchanged; every first `CheckAndMark` after a `Reset` returns
`false`; and the counters never decrease across any sequence of operations
(which may include `Reset`). -/
theorem Reset_isolation (d : MetricDeduplicator) :
    (Reset d).sentSignatures = ∅ ∧
    (Reset d).uniqueMetricsGauge = 0 ∧
    (Reset d).checksTotal = d.checksTotal ∧
    (Reset d).duplicatesTotal = d.duplicatesTotal ∧
    (∀ name labelKeys labelValues ts,
      (CheckAndMark (Reset d) name labelKeys labelValues ts).1 = false) ∧
    (∀ ops : List DedupOp,
      d.checksTotal ≤ (applyOps d ops).checksTotal ∧
      d.duplicatesTotal ≤ (applyOps d ops).duplicatesTotal) := by
  refine ⟨rfl, rfl, rfl, rfl, ?_, fun ops => applyOps_counters_mono ops d⟩
  intro name labelKeys labelValues ts
  rw [CheckAndMark_fst]
  simp [Reset]

/-- C10: in the project-labeled deduplicator variant, `RevertMark` ignores
its timestamp argument: any two timestamps produce identical resulting
states, so in particular identical gauge values. -/
theorem ProjectRevertMark_timestamp_irrelevant (d : MetricDeduplicator)
    (name : List Nat) (labelKeys labelValues : List (List Nat)) (ts1 ts2 : Nat) :
    ProjectDedup.RevertMark d name labelKeys labelValues ts1 =
      ProjectDedup.RevertMark d name labelKeys labelValues ts2 ∧
    (ProjectDedup.RevertMark d name labelKeys labelValues ts1).uniqueMetricsGauge =
      (ProjectDedup.RevertMark d name labelKeys labelValues ts2).uniqueMetricsGauge :=
  ⟨rfl, rfl⟩

/-! ## The sorted index permutation -/

theorem mem_sortIndices {keys : List (List Nat)} {i : Nat} (h : i ∈ sortIndices keys) :
    i < keys.length := by
  unfold sortIndices at h
  rw [List.mem_insertionSort] at h
  exact List.mem_range.mp h

theorem getD_replicate_nil (m j : Nat) :
    (List.replicate m ([] : List Nat)).getD j [] = [] := by
  rcases Nat.lt_or_ge j m with h | h
  · rw [List.getD_eq_getElem _ _ (by simpa using h)]
    simp
  · exact List.getD_eq_default _ _ (by simpa using h)

theorem hashLabels_pad (name : List Nat) (labelKeys labelValues : List (List Nat))
    (h : labelValues.length < labelKeys.length) :
    hashLabels name labelKeys labelValues =
      hashLabels name labelKeys
        (labelValues ++ List.replicate (labelKeys.length - labelValues.length) []) := by
  have hplen :
      (labelValues ++
        List.replicate (labelKeys.length - labelValues.length) ([] : List Nat)).length =
        labelKeys.length := by
    simp only [List.length_append, List.length_replicate]
    omega
  unfold hashLabels
  by_cases hk : 0 < labelKeys.length
  · simp only [hk, if_true]
    apply List.foldl_ext
    intro a idx hidx
    have hi : idx < labelKeys.length := mem_sortIndices hidx
    unfold hashBody
    rw [hplen, if_pos hi]
    by_cases hv : idx < labelValues.length
    · rw [if_pos hv, List.getD_append _ _ _ _ hv]
    · rw [if_neg hv,
        List.getD_append_right _ _ _ _ (Nat.le_of_not_lt hv), getD_replicate_nil]
      rfl
  · simp only [hk, if_false]

/-- C5: a keys/values length mismatch does not fail; the signature is the
one obtained by padding the value sequence with empty strings up to the
number of keys — each unmatched key is folded with its separators and no
value bytes, exactly as an empty value would be. -/
theorem hashLabelsTimestamp_pad (name : List Nat) (labelKeys labelValues : List (List Nat))
    (ts : Nat) (h : labelValues.length < labelKeys.length) :
    hashLabelsTimestamp name labelKeys labelValues ts =
      hashLabelsTimestamp name labelKeys
        (labelValues ++ List.replicate (labelKeys.length - labelValues.length) []) ts := by
  unfold hashLabelsTimestamp
  rw [hashLabels_pad name labelKeys labelValues h]

/-- Witness for C5: metric name `"m"`, keys `"a", "b"`, a single value
`"x"`, timestamp 5. -/
theorem hashLabelsTimestamp_pad_witness :
    ([[120]] : List (List Nat)).length < ([[97], [98]] : List (List Nat)).length ∧
    hashLabelsTimestamp [109] [[97], [98]] [[120]] 5 =
      hashLabelsTimestamp [109] [[97], [98]]
        ([[120]] ++
          List.replicate
            (([[97], [98]] : List (List Nat)).length - ([[120]] : List (List Nat)).length)
            []) 5 :=
  ⟨by decide, hashLabelsTimestamp_pad [109] [[97], [98]] [[120]] 5 (by decide)⟩

/-! ## Order-independence of the signature -/

theorem map_getD_range_zip :
    ∀ (keys values : List (List Nat)), keys.length = values.length →
      (List.range keys.length).map (fun i => (keys.getD i [], values.getD i [])) =
        keys.zip values := by
  intro keys
  induction keys with
  | nil =>
    intro values _
    simp
  | cons k ks ih =>
    intro values h
    cases values with
    | nil => simp at h
    | cons v vs =>
      simp only [List.length_cons] at h
      have hlen : ks.length = vs.length := Nat.succ_injective h
      have harg :
          (fun i => ((k :: ks).getD i [], (v :: vs).getD i [])) ∘ Nat.succ =
            fun i => (ks.getD i [], vs.getD i []) := by
        funext i
        simp [List.getD_cons_succ]
      rw [List.length_cons, List.range_succ_eq_map, List.map_cons, List.map_map, harg,
        ih vs hlen]
      simp

theorem map_sortIndices_eq_sortPairs (keys values : List (List Nat))
    (hlen : keys.length = values.length) :
    (sortIndices keys).map (fun i => (keys.getD i [], values.getD i [])) =
      sortPairs (keys.zip values) := by
  unfold sortIndices sortPairs
  rw [List.map_insertionSort (keyLe keys) pairLe
      (fun i => (keys.getD i [], values.getD i [])) (List.range keys.length)
      (fun a _ b _ => Iff.rfl),
    map_getD_range_zip keys values hlen]

theorem hashLabels_eq_sortPairs (name : List Nat) (keys values : List (List Nat))
    (hlen : keys.length = values.length) :
    hashLabels name keys values =
      (sortPairs (keys.zip values)).foldl foldPair
        (AddByte (Add New name) SeparatorByte) := by
  unfold hashLabels
  by_cases hk : 0 < keys.length
  · simp only [hk, if_true]
    rw [← map_sortIndices_eq_sortPairs keys values hlen, List.foldl_map]
    apply List.foldl_ext
    intro a idx hidx
    have hi : idx < values.length := hlen ▸ mem_sortIndices hidx
    unfold hashBody foldPair
    rw [if_pos hi]
  · obtain rfl : keys = [] :=
      List.length_eq_zero.mp (Nat.eq_zero_of_not_pos hk)
    simp [sortPairs]

theorem sortPairs_eq_of_perm {p₁ p₂ : List (List Nat × List Nat)} (hperm : p₁.Perm p₂)
    (hnodup : (p₁.map Prod.fst).Nodup) : sortPairs p₁ = sortPairs p₂ := by
  haveI : IsTotal (List Nat × List Nat) pairLe := ⟨fun a b => bytesLe_total a.1 b.1⟩
  haveI : IsTrans (List Nat × List Nat) pairLe := ⟨fun _ _ _ hab hbc => bytesLe_trans hab hbc⟩
  haveI : IsAntisymm (List Nat × List Nat) pairLt := by
    refine ⟨fun a b h1 h2 => ?_⟩
    unfold pairLt at h1 h2
    rw [bytesLt_asymm h1] at h2
    exact absurd h2 (by simp)
  have hperm₁ : (sortPairs p₁).Perm p₁ := List.perm_insertionSort pairLe p₁
  have hperm₂ : (sortPairs p₂).Perm p₂ := List.perm_insertionSort pairLe p₂
  have strict : ∀ q : List (List Nat × List Nat), List.Sorted pairLe q →
      (q.map Prod.fst).Nodup → List.Sorted pairLt q := by
    intro q hq hnd
    have hne : q.Pairwise fun a b => a.1 ≠ b.1 := List.pairwise_map.mp hnd
    have hq' : q.Pairwise pairLe := hq
    refine ((hq'.and hne).imp ?_ : q.Pairwise pairLt)
    intro a b hab
    obtain ⟨hle, hne'⟩ := hab
    have hba : bytesLt b.1 a.1 = false := by
      unfold pairLe bytesLe at hle
      cases hcase : bytesLt b.1 a.1
      · rfl
      · rw [hcase] at hle
        simp at hle
    unfold pairLt
    cases hcase : bytesLt a.1 b.1
    · exact absurd (eq_of_not_bytesLt hcase hba) hne'
    · rfl
  have hnd₁ : ((sortPairs p₁).map Prod.fst).Nodup :=
    ((hperm₁.map Prod.fst).nodup_iff).mpr hnodup
  have hnd₂ : ((sortPairs p₂).map Prod.fst).Nodup :=
    ((hperm₂.map Prod.fst).nodup_iff).mpr (((hperm.map Prod.fst).nodup_iff).mp hnodup)
  exact List.eq_of_perm_of_sorted (hperm₁.trans (hperm.trans hperm₂.symm))
    (strict _ (List.sorted_insertionSort pairLe p₁) hnd₁)
    (strict _ (List.sorted_insertionSort pairLe p₂) hnd₂)

/-- C1 (amended): for label lists whose keys are pairwise distinct, every
permutation of the (key, value) pair list yields the same signature from
`hashLabelsTimestamp`. -/
theorem hashLabelsTimestamp_perm_invariant (name : List Nat) (ts : Nat)
    (p₁ p₂ : List (List Nat × List Nat)) (hperm : p₁.Perm p₂)
    (hnodup : (p₁.map Prod.fst).Nodup) :
    hashLabelsTimestamp name (p₁.map Prod.fst) (p₁.map Prod.snd) ts =
      hashLabelsTimestamp name (p₂.map Prod.fst) (p₂.map Prod.snd) ts := by
  have hcore : hashLabels name (p₁.map Prod.fst) (p₁.map Prod.snd) =
      hashLabels name (p₂.map Prod.fst) (p₂.map Prod.snd) := by
    rw [hashLabels_eq_sortPairs _ _ _ (by simp), hashLabels_eq_sortPairs _ _ _ (by simp),
      List.zip_map', List.zip_map']
    simp only [Prod.mk.eta, List.map_id, List.map_id']
    rw [sortPairs_eq_of_perm hperm hnodup]
  unfold hashLabelsTimestamp
  rw [hcore]

/-- Witness for C1 (amended): the two distinct-keyed pairs ("a","x") and
("b","y"), swapped. -/
theorem hashLabelsTimestamp_perm_invariant_witness :
    (([([97], [120]), ([98], [121])] : List (List Nat × List Nat)).Perm
        [([98], [121]), ([97], [120])] ∧
      (([([97], [120]), ([98], [121])] : List (List Nat × List Nat)).map Prod.fst).Nodup) ∧
    hashLabelsTimestamp []
        (([([97], [120]), ([98], [121])] : List (List Nat × List Nat)).map Prod.fst)
        (([([97], [120]), ([98], [121])] : List (List Nat × List Nat)).map Prod.snd) 0 =
      hashLabelsTimestamp []
        (([([98], [121]), ([97], [120])] : List (List Nat × List Nat)).map Prod.fst)
        (([([98], [121]), ([97], [120])] : List (List Nat × List Nat)).map Prod.snd) 0 :=
  ⟨⟨by decide, by decide⟩,
   hashLabelsTimestamp_perm_invariant [] 0 _ _ (by decide) (by decide)⟩

/-- Counterexample to C1 as stated: the key "a" occurs twice, bound to the
values "x" and "y"; swapping the two pairs permutes the same (key, value)
multiset, yet `hashLabelsTimestamp` returns different signatures, because
the tie in the key sort leaves the two values folded in their original
order. -/
theorem hashLabelsTimestamp_perm_counterexample :
    (([([97], [120]), ([97], [121])] : List (List Nat × List Nat)).Perm
        [([97], [121]), ([97], [120])]) ∧
    hashLabelsTimestamp []
        (([([97], [120]), ([97], [121])] : List (List Nat × List Nat)).map Prod.fst)
        (([([97], [120]), ([97], [121])] : List (List Nat × List Nat)).map Prod.snd) 0 ≠
      hashLabelsTimestamp []
        (([([97], [121]), ([97], [120])] : List (List Nat × List Nat)).map Prod.fst)
        (([([97], [121]), ([97], [120])] : List (List Nat × List Nat)).map Prod.snd) 0 :=
  ⟨by decide, by decide⟩

/-! ## Label assembly -/

/-- C8: a malformed system-label payload — empty or unparsable input, the
literal `null`, an array, or any other non-object root — leaves the label
sequences byte-for-byte unchanged; nothing is surfaced to the caller. -/
theorem addSystemLabels_malformed_noop (labelKeys labelValues : List String)
    (p : SystemLabelsPayload) (h : isObjPayload p = false) :
    addSystemLabels p labelKeys labelValues = (labelKeys, labelValues) := by
  cases p <;> first
    | rfl
    | exact absurd h (by simp [isObjPayload])

/-- Witness for C8: a `null` payload over the label set `existing ↦ value`. -/
theorem addSystemLabels_malformed_noop_witness :
    isObjPayload SystemLabelsPayload.null = false ∧
    addSystemLabels SystemLabelsPayload.null ["existing"] ["value"] =
      (["existing"], ["value"]) :=
  ⟨rfl, addSystemLabels_malformed_noop ["existing"] ["value"] SystemLabelsPayload.null rfl⟩

/-- C9: with system labels enabled and `conflict_key` present in both the
user mapping (value `user_value`) and the system payload (value
`system_value`, alongside `system_only`), assembling with override disabled
binds `conflict_key` to `system_value` and assembling with override enabled
binds it to `user_value`; `system_only` is present in both results (the
full assembled sequences are exactly those the flags test expects). -/
theorem conflict_precedence_user_system_labels :
    assembleLabels "percent" [("metric_key", "metric_value")]
        [("resource_key", "resource_value")] [("conflict_key", "user_value")]
        (SystemLabelsPayload.obj
          [("conflict_key", "system_value"), ("system_only", "system_only_value")])
        true false =
      (["unit", "metric_key", "resource_key", "conflict_key", "system_only"],
        ["percent", "metric_value", "resource_value", "system_value",
          "system_only_value"]) ∧
    assembleLabels "seconds" [("metric_key", "metric_value")]
        [("resource_key", "resource_value")] [("conflict_key", "user_value")]
        (SystemLabelsPayload.obj
          [("conflict_key", "system_value"), ("system_only", "system_only_value")])
        true true =
      (["unit", "metric_key", "resource_key", "conflict_key", "system_only"],
        ["seconds", "metric_value", "resource_value", "user_value",
          "system_only_value"]) :=
  ⟨by decide, by decide⟩

/-- Witness for C6: three identical calls on a fresh deduplicator. -/
theorem CheckAndMark_idempotent_within_iteration_witness :
    (1 ≤ 3 ∧
      hashLabelsTimestamp [97] [] [] 0 ∉ NewMetricDeduplicator.sentSignatures) ∧
    ((CheckAndMark NewMetricDeduplicator [97] [] [] 0).1 = false ∧
      ∀ k, 1 ≤ k → k < 3 →
        (CheckAndMark ((checkStep [97] [] [] 0)^[k] NewMetricDeduplicator)
          [97] [] [] 0).1 = true) :=
  ⟨⟨by decide, by simp [NewMetricDeduplicator]⟩,
   CheckAndMark_idempotent_within_iteration NewMetricDeduplicator [97] [] [] 0 3
     (by decide) (by simp [NewMetricDeduplicator])⟩

/-! ## Supporting facts for the hash primitive and the index sort

These record, against the spec-modelled `hash` package, what its test file
checks: `AddUint64` consumes the value's bytes least-significant first, and
is not the single-step xor-then-multiply at the tested value (nor at any
nonzero single-byte value); and the index sort is ordered by the key
comparator and permutes the index range. -/

theorem AddUint64_byte_order_at_test_value :
    AddUint64 New 72623859790382856 =
      List.foldl AddByte New [8, 7, 6, 5, 4, 3, 2, 1] := by decide

theorem AddUint64_ne_single_step_at_test_value :
    AddUint64 New 72623859790382856 ≠
      (New ^^^ 72623859790382856) * prime64 % 2 ^ 64 := by decide

set_option maxRecDepth 8000 in
theorem AddUint64_ne_single_step_below_256 :
    ∀ v < 256, v ≠ 0 → AddUint64 New v ≠ (New ^^^ v) * prime64 % 2 ^ 64 := by decide

theorem sortIndices_sorted (keys : List (List Nat)) :
    List.Sorted (keyLe keys) (sortIndices keys) := by
  haveI : IsTotal Nat (keyLe keys) := ⟨fun _ _ => bytesLe_total _ _⟩
  haveI : IsTrans Nat (keyLe keys) := ⟨fun _ _ _ => bytesLe_trans⟩
  exact List.sorted_insertionSort _ _

theorem sortIndices_perm_range (keys : List (List Nat)) :
    (sortIndices keys).Perm (List.range keys.length) :=
  List.perm_insertionSort _ _

end StackdriverSpec
